/-
  Spec2Proof.lean

  A verification development for the core of the wimlib WIM archive engine.
  The provided C sources are shallowly embedded in Lean:

  * `resource.c` — the chunked compressed-resource reader
    (`read_compressed_resource`), the resource-entry codec
    (`get_resource_entry` / `put_resource_entry`) and the extraction
    path with SHA-1 verification (`extract_wim_resource`);
  * `modify.c` — capture-time interning of file contents into the
    lookup table (`build_dentry_tree`);
  * `ntfs-3g_capture.c` — the NTFS stream-capture interning path
    (`capture_ntfs_streams`);
  * `xml_windows.c` — the debug gate for warnings emitted during XML
    property inference (`set_windows_specific_info` / `XML_WARN`).

  Machine integers are modelled as `Nat` with explicit reductions
  modulo `2^32` / `2^64` at the points where C unsigned arithmetic can
  wrap.  Files are byte lists with an explicit read position; fallible
  operations return `Option` / `Except`.
-/
import Mathlib

namespace Wimlib

/-! ## Byte-level helpers

All multibyte integers of the WIM on-disk format are little-endian. -/

/-- Little-endian value of a byte list (each byte reduced modulo 256). -/
def leNat : List Nat → Nat
  | [] => 0
  | b :: r => b % 256 + 256 * leNat r

/-- Little-endian encoding of `v` into `n` bytes (value truncated to `n` bytes). -/
def leBytes : Nat → Nat → List Nat
  | 0, _ => []
  | n + 1, v => v % 256 :: leBytes n (v / 256)

theorem leBytes_length (n v : Nat) : (leBytes n v).length = n := by
  induction n generalizing v with
  | zero => rfl
  | succ n ih => simp [leBytes, ih]

theorem leNat_leBytes (n v : Nat) : leNat (leBytes n v) = v % 2 ^ (8 * n) := by
  induction n generalizing v with
  | zero => simp [leBytes, leNat, Nat.mod_one]
  | succ n ih =>
    have h2 : (2 : Nat) ^ (8 * (n + 1)) = 256 * 2 ^ (8 * n) := by ring
    rw [leBytes, leNat, ih, h2, Nat.mod_mul]
    omega

theorem leNat_lt (l : List Nat) : leNat l < 2 ^ (8 * l.length) := by
  induction l with
  | nil => simp [leNat]
  | cons b r ih =>
    have hb : b % 256 < 256 := Nat.mod_lt _ (by norm_num)
    have h2 : (2 : Nat) ^ (8 * (r.length + 1)) = 256 * 2 ^ (8 * r.length) := by ring
    simp only [leNat, List.length_cons, h2]
    calc b % 256 + 256 * leNat r < 256 + 256 * leNat r := by omega
    _ ≤ 256 * (leNat r + 1) := by ring_nf; omega
    _ ≤ 256 * 2 ^ (8 * r.length) := by
        have := ih
        exact Nat.mul_le_mul_left _ (by omega)

/-! ## Resource entries (`resource.c`, `get_resource_entry` / `put_resource_entry`)

The byte-access helpers `get_u56`, `get_u8`, `get_u64`, `put_u56`,
`put_u8`, `put_u64` come from `buffer_io.h`, which is not among the
provided sources; they are modelled from the spec, which fixes the
on-disk resource entry as 24 bytes — stored size (7 bytes), flags
(1 byte), offset (8 bytes), original size (8 bytes) — with all
multibyte integers little-endian. -/

/-- In-memory resource entry (`struct resource_entry`). -/
structure resource_entry where
  size : Nat
  flags : Nat
  offset : Nat
  original_size : Nat
deriving Repr, DecidableEq

/-- Modelled from the spec: `get_u56` reads a 7-byte little-endian integer
and advances past it (`buffer_io.h` is not among the provided sources). -/
def get_u56 (p : List Nat) : Nat × List Nat := (leNat (p.take 7), p.drop 7)

/-- Modelled from the spec: `get_u8` reads one byte and advances past it. -/
def get_u8 (p : List Nat) : Nat × List Nat := (p.headD 0 % 256, p.drop 1)

/-- Modelled from the spec: `get_u64` reads an 8-byte little-endian integer
and advances past it. -/
def get_u64 (p : List Nat) : Nat × List Nat := (leNat (p.take 8), p.drop 8)

/-- Modelled from the spec: `put_u56` writes a 7-byte little-endian integer. -/
def put_u56 (v : Nat) : List Nat := leBytes 7 v

/-- Modelled from the spec: `put_u8` writes one byte. -/
def put_u8 (v : Nat) : List Nat := leBytes 1 v

/-- Modelled from the spec: `put_u64` writes an 8-byte little-endian integer. -/
def put_u64 (v : Nat) : List Nat := leBytes 8 v

/-- Embedding of `get_resource_entry` (`resource.c` lines 386–412).  Parses a
24-byte on-disk resource entry, masking the upper two bits of `offset` and
`original_size` (with a warning) exactly as the C code does.  Returns the
parsed entry, the remaining bytes (the returned pointer), and the number of
`WARNING`s issued. -/
def get_resource_entry (p : List Nat) : resource_entry × List Nat × Nat :=
  let s1 := get_u56 p
  let s2 := get_u8 s1.2
  let s3 := get_u64 s2.2
  let o :=
    if s3.1 &&& 0xc000000000000000 ≠ 0 then
      (s3.1 &&& 0x3fffffffffffffff, 1)
    else (s3.1, 0)
  let s4 := get_u64 s3.2
  let os :=
    if s4.1 &&& 0xc000000000000000 ≠ 0 then
      (s4.1 &&& 0x3fffffffffffffff, 1)
    else (s4.1, 0)
  ({ size := s1.1, flags := s2.1, offset := o.1, original_size := os.1 },
   s4.2, o.2 + os.2)

/-- Embedding of `put_resource_entry` (`resource.c` lines 417–425): writes the
24-byte on-disk form of a resource entry. -/
def put_resource_entry (e : resource_entry) : List Nat :=
  put_u56 e.size ++ put_u8 e.flags ++ put_u64 e.offset ++ put_u64 e.original_size

/-! ## Error kinds

Error codes returned by the embedded functions.  `READ`,
`DECOMPRESSION`, `INVALID_RESOURCE_HASH`, `WRITE`, `OPEN` and `NOMEM`
correspond to the `WIMLIB_ERR_*` codes the provided sources return.
`CORRUPT_RESOURCE` is the spec's `CorruptResource` error kind; it is
included so that statements about it can be made (no function in the
provided sources produces it). -/

inductive WimErr where
  | READ
  | DECOMPRESSION
  | INVALID_RESOURCE_HASH
  | WRITE
  | OPEN
  | NOMEM
  | CORRUPT_RESOURCE
deriving Repr, DecidableEq

/-! ## The compressed-resource reader (`resource.c`, `read_compressed_resource`)

A `FILE *` is modelled as a byte list plus a read position.  `fseeko`
never fails in the model (as in C it only repositions the stream);
`fread` fails when fewer bytes than requested are available, which is
exactly the condition under which the C code takes its `goto err`
path and returns `WIMLIB_ERR_READ`. -/

structure FileState where
  file : List Nat
  pos : Nat
deriving Repr, DecidableEq

/-- `fread(buf, 1, n, fp)`: take `n` bytes at the current position, or fail. -/
def fread (st : FileState) (n : Nat) : Option (List Nat × FileState) :=
  if st.pos + n ≤ st.file.length then
    some ((st.file.drop st.pos).take n, { st with pos := st.pos + n })
  else none

/-- `fseeko(fp, o, SEEK_SET)`. -/
def fseek_set (st : FileState) (o : Nat) : FileState := { st with pos := o }

/-- `fseeko(fp, o, SEEK_CUR)` (forward seek). -/
def fseek_cur (st : FileState) (o : Nat) : FileState := { st with pos := st.pos + o }

/-- A chunk decompressor (`lzx_decompress` / `xpress_decompress`):
compressed bytes and expected uncompressed length in, uncompressed
bytes out, or `none` on failure (nonzero return in C). -/
def Decompressor : Type := List Nat → Nat → Option (List Nat)

def WIM_CHUNK_SIZE : Nat := 32768

/-- 64-bit unsigned subtraction (wraps modulo `2^64`). -/
def sub64 (a b : Nat) : Nat := (a % 2 ^ 64 + 2 ^ 64 - b % 2 ^ 64) % 2 ^ 64

/-- Truncation to C `unsigned` (32 bits). -/
def u32 (a : Nat) : Nat := a % 2 ^ 32

namespace RCR

/-- `num_chunks = (resource_uncompressed_size + WIM_CHUNK_SIZE - 1) / WIM_CHUNK_SIZE`
(`resource.c` line 109). -/
def num_chunks (ruc : Nat) : Nat := (ruc + WIM_CHUNK_SIZE - 1) / WIM_CHUNK_SIZE

/-- `num_chunk_entries = num_chunks - 1` (line 112). -/
def num_chunk_entries (ruc : Nat) : Nat := num_chunks ruc - 1

/-- `start_chunk = offset / WIM_CHUNK_SIZE` (line 116). -/
def start_chunk (offset : Nat) : Nat := offset / WIM_CHUNK_SIZE

/-- `start_chunk_offset = offset % WIM_CHUNK_SIZE` (line 118). -/
def start_chunk_offset (offset : Nat) : Nat := offset % WIM_CHUNK_SIZE

/-- `end_chunk = (offset + len - 1) / WIM_CHUNK_SIZE` (line 121). -/
def end_chunk (offset len : Nat) : Nat := (offset + len - 1) / WIM_CHUNK_SIZE

/-- `end_chunk_offset = (offset + len - 1) % WIM_CHUNK_SIZE` (line 123). -/
def end_chunk_offset (offset len : Nat) : Nat := (offset + len - 1) % WIM_CHUNK_SIZE

/-- `num_needed_chunks` (lines 127–133): the chunks of the read, plus one
extra entry when the end chunk is not the resource's last chunk. -/
def num_needed_chunks (ruc offset len : Nat) : Nat :=
  (end_chunk offset len - start_chunk offset + 1) +
    (if end_chunk offset len ≠ num_chunks ruc - 1 then 1 else 0)

/-- `chunk_entry_size` (lines 153–154): 8-byte entries for resources of
uncompressed size at least `2^32`, 4-byte entries otherwise. -/
def chunk_entry_size (ruc : Nat) : Nat := if ruc ≥ 2 ^ 32 then 8 else 4

/-- `chunk_table_size = chunk_entry_size * num_chunk_entries` (line 157). -/
def chunk_table_size (ruc : Nat) : Nat := chunk_entry_size ruc * num_chunk_entries ruc

/-- `start_table_idx` (line 163). -/
def start_table_idx (offset : Nat) : Nat :=
  if start_chunk offset = 0 then 0 else start_chunk offset - 1

/-- `num_needed_chunk_entries` (lines 167–168): entries actually read from
the table (the implicit first chunk is excluded). -/
def num_needed_chunk_entries (ruc offset len : Nat) : Nat :=
  if start_chunk offset = 0 then num_needed_chunks ruc offset len - 1
  else num_needed_chunks ruc offset len

/-- Turn the raw chunk-table bytes into offsets (lines 195–203): a
count-driven loop reading `chunk_entry_size`-byte little-endian values. -/
def parse_chunk_entries : Nat → Nat → List Nat → List Nat
  | 0, _, _ => []
  | c + 1, esz, buf => leNat (buf.take esz) :: parse_chunk_entries c esz (buf.drop esz)

/-- `compressed_chunk_size` derivation for chunk `i` (lines 240–259): the
difference of adjacent chunk-table offsets, except for the resource's last
chunk whose size is the stored size minus the chunk table and its own
offset.  The u64 differences wrap modulo `2^64` and the result is stored
into a 32-bit C `unsigned`. -/
def compressed_chunk_size (rcs ruc : Nat) (offsets : List Nat) (s i : Nat) : Nat :=
  if i ≠ num_chunks ruc - 1 then
    u32 (sub64 (offsets.getD (i + 1 - s) 0) (offsets.getD (i - s) 0))
  else
    u32 (sub64 (sub64 rcs (chunk_table_size ruc)) (offsets.getD (i - s) 0))

/-- `uncompressed_chunk_size` for chunk `i` (lines 247, 261–267). -/
def uncompressed_chunk_size (ruc i : Nat) : Nat :=
  if i ≠ num_chunks ruc - 1 then WIM_CHUNK_SIZE
  else if ruc % WIM_CHUNK_SIZE = 0 then WIM_CHUNK_SIZE else ruc % WIM_CHUNK_SIZE

/-- `start_offset` for chunk `i` (lines 276–280). -/
def chunk_start_offset (offset i : Nat) : Nat :=
  if i = start_chunk offset then start_chunk_offset offset else 0

/-- `end_offset` for chunk `i` (lines 281–285). -/
def chunk_end_offset (offset len i : Nat) : Nat :=
  if i = end_chunk offset len then end_chunk_offset offset len else WIM_CHUNK_SIZE - 1

/-- One iteration of the chunk loop (lines 231–346) for chunk `i`: derive
the sizes, then either copy the stored bytes verbatim (sizes equal) or
read and decompress.  Returns the produced output bytes and new file
state (or the error), paired with whether the decompressor was invoked. -/
def process_chunk (dec : Decompressor) (rcs ruc offset len : Nat) (offsets : List Nat)
    (i : Nat) (st : FileState) : Except WimErr (List Nat × FileState) × Bool :=
  let ccs := compressed_chunk_size rcs ruc offsets (start_chunk offset) i
  let ucs := uncompressed_chunk_size ruc i
  let so := chunk_start_offset offset i
  let eo := chunk_end_offset offset len i
  let pcs := eo + 1 - so
  if ccs = ucs then
    -- "Probably an uncompressed chunk" (lines 298–310)
    let st1 := if so ≠ 0 then fseek_cur st so else st
    match fread st1 pcs with
    | none => (.error .READ, false)
    | some (bytes, st2) => (.ok (bytes, st2), false)
  else
    -- Compressed chunk (lines 311–341)
    match fread st ccs with
    | none => (.error .READ, false)
    | some (cbytes, st2) =>
      match dec cbytes ucs with
      | none => (.error .DECOMPRESSION, true)
      | some ubytes =>
        if pcs ≠ ucs then (.ok ((ubytes.drop so).take pcs, st2), true)
        else (.ok (ubytes, st2), true)

/-- The chunk loop (`for i = start_chunk .. end_chunk`): returns the
concatenated output (or the first error), the list of chunk indices
processed, and the list of chunk indices on which the decompressor was
invoked. -/
def chunk_loop (dec : Decompressor) (rcs ruc offset len : Nat) (offsets : List Nat) :
    List Nat → FileState → Except WimErr (List Nat) × List Nat × List Nat
  | [], _ => (.ok [], [], [])
  | i :: rest, st =>
    match process_chunk dec rcs ruc offset len offsets i st with
    | (.error e, used) => (.error e, [i], if used then [i] else [])
    | (.ok (bytes, st'), used) =>
      let r := chunk_loop dec rcs ruc offset len offsets rest st'
      (r.1.map (fun out => bytes ++ out), i :: r.2.1,
       (if used then [i] else []) ++ r.2.2)

/-- Observable trace of one `read_compressed_resource` call. -/
structure RCTrace where
  startChunk : Nat
  endChunk : Nat
  numChunks : Nat
  chunkEntrySize : Nat
  startTableIdx : Nat
  numNeededChunkEntries : Nat
  chunkOffsets : List Nat
  processedChunks : List Nat
  decompressedChunks : List Nat
deriving Repr, DecidableEq

end RCR

/-- Embedding of `read_compressed_resource` (`resource.c` lines 71–356).
Arguments mirror the C signature: stored (compressed) size `rcs`,
uncompressed size `ruc`, resource offset `roff`, the chosen decompressor,
requested length and offset, and the file.  Returns the uncompressed
bytes (or the error) together with the trace of the call. -/
def read_compressed_resource (dec : Decompressor) (rcs ruc roff len offset : Nat)
    (file : List Nat) : Except WimErr (List Nat) × RCR.RCTrace :=
  if len = 0 then
    (.ok [], ⟨0, 0, 0, 0, 0, 0, [], [], []⟩)
  else
    let s := RCR.start_chunk offset
    let e := RCR.end_chunk offset len
    let esz := RCR.chunk_entry_size ruc
    let sti := RCR.start_table_idx offset
    let nce := RCR.num_needed_chunk_entries ruc offset len
    let st0 : FileState := { file := file, pos := 0 }
    -- seek to the needed chunk-table entries and read them (lines 171–186)
    let st1 := fseek_set st0 (roff + sti * esz)
    match fread st1 (nce * esz) with
    | none =>
      (.error .READ,
       ⟨s, e, RCR.num_chunks ruc, esz, sti, nce, [], [], []⟩)
    | some (tabbuf, st2) =>
      -- fill in chunk_offsets, the first chunk's offset 0 implicit (lines 147–148, 188–203)
      let offsets := (if s = 0 then [0] else []) ++ RCR.parse_chunk_entries nce esz tabbuf
      -- seek to the first needed chunk (lines 208–215)
      let st3 := fseek_set st2 (roff + RCR.chunk_table_size ruc + offsets.getD 0 0)
      let r := RCR.chunk_loop dec rcs ruc offset len offsets
                 (List.range' s (e - s + 1)) st3
      (r.1,
       ⟨s, e, RCR.num_chunks ruc, esz, sti, nce, offsets, r.2.1, r.2.2⟩)

/-! ## Resource extraction with SHA-1 verification
(`resource.c`, `read_wim_resource` / `extract_wim_resource`)

The lookup-table entry is modelled with its resource entry, stored
SHA-1 hash, and the resource contents as an attached buffer — the
`RESOURCE_IN_ATTACHED_BUFFER` case of `read_wim_resource` (lines
583–588), which serves bytes with a plain copy.  SHA-1 itself is an
external primitive: `extract_wim_resource` is parametrised over the
digest function, with the incremental `sha1_update` calls modelled as
accumulation of the hashed bytes. -/

structure wim_lookup_table_entry where
  res_entry : resource_entry
  hash : List Nat
  attached_buffer : List Nat
deriving Repr, DecidableEq

/-- Modelled from the spec: `wim_resource_size` (a header helper not among
the provided sources) is the resource's uncompressed ("original") size. -/
def wim_resource_size (lte : wim_lookup_table_entry) : Nat :=
  lte.res_entry.original_size

/-- `read_wim_resource` for an attached buffer (`resource.c` lines
583–588): `memcpy(buf, lte->attached_buffer + offset, size)`. -/
def read_wim_resource (lte : wim_lookup_table_entry) (size offset : Nat) : List Nat :=
  (lte.attached_buffer.drop offset).take size

/-- The `extract_chunk` callback: `none` models a zero (success) return,
`some e` a nonzero error return. -/
def ExtractChunkFn : Type := List Nat → Nat → Option WimErr

/-- The `while (bytes_remaining)` loop of `extract_wim_resource`
(`resource.c` lines 651–665): read up to `bufsz` bytes, feed them to the
hash context when `check_hash` (modelled by accumulating them in `acc`),
hand them to `extract_chunk`, and continue.  The `to_read = 0` branch is
unreachable from `extract_wim_resource`, where `bufsz > 0` whenever
`bytes_remaining > 0`. -/
def extract_loop (lte : wim_lookup_table_entry) (ec : ExtractChunkFn)
    (check_hash : Bool) (bufsz : Nat) :
    Nat → Nat → List Nat → Except WimErr (List Nat)
  | bytes_remaining, offset, acc =>
    if hr : bytes_remaining = 0 then .ok acc
    else
      let to_read := min bytes_remaining bufsz
      if ht : to_read = 0 then .ok acc
      else
        let buf := read_wim_resource lte to_read offset
        let acc' := if check_hash then acc ++ buf else acc
        match ec buf offset with
        | some e => .error e
        | none =>
          extract_loop lte ec check_hash bufsz
            (bytes_remaining - to_read) (offset + to_read) acc'
termination_by br => br
decreasing_by
  simp only [to_read] at ht
  omega

/-- Embedding of `extract_wim_resource` (`resource.c` lines 634–677),
parametrised over the SHA-1 digest function and the `extract_chunk`
callback.  The hash is verified exactly when the requested size equals
the full resource size. -/
def extract_wim_resource (sha1 : List Nat → List Nat)
    (lte : wim_lookup_table_entry) (size : Nat) (ec : ExtractChunkFn) :
    Except WimErr Unit :=
  let bufsz := min WIM_CHUNK_SIZE size
  let check_hash : Bool := size == wim_resource_size lte
  match extract_loop lte ec check_hash bufsz size 0 [] with
  | .error e => .error e
  | .ok acc =>
    if check_hash then
      if sha1 acc == lte.hash then .ok () else .error .INVALID_RESOURCE_HASH
    else .ok ()

/-! ## Capture-time interning into the lookup table
(`modify.c`, `build_dentry_tree`; `ntfs-3g_capture.c`, `capture_ntfs_streams`)

The lookup table is modelled as a list of entries; `lookup_resource` /
`__lookup_resource` find the entry with a given SHA-1 (modelled as a
`Nat` key), and `lookup_table_insert` adds a fresh entry.  Mutating the
found entry's `refcnt` in place becomes bumping the first matching
entry of the list. -/

structure lookup_table_entry where
  hash : Nat
  refcnt : Nat
  part_number : Nat
  size : Nat
  original_size : Nat
  flags : Nat
  file_on_disk : String
deriving Repr, DecidableEq

/-- Modelled from the spec: `new_lookup_table_entry` (not among the
provided sources) allocates a fresh entry; fresh entries carry reference
count 1. -/
def new_lookup_table_entry : lookup_table_entry :=
  { hash := 0, refcnt := 1, part_number := 0, size := 0, original_size := 0,
    flags := 0, file_on_disk := "" }

/-- `lookup_resource(lookup_table, hash)`: find the entry with this hash. -/
def lookup_resource (tbl : List lookup_table_entry) (h : Nat) :
    Option lookup_table_entry :=
  tbl.find? (fun e => e.hash == h)

/-- `lookup_table_insert`. -/
def lookup_table_insert (tbl : List lookup_table_entry)
    (e : lookup_table_entry) : List lookup_table_entry :=
  e :: tbl

/-- `lte->refcnt++` on the entry `lookup_resource` found: bump the first
entry with the given hash. -/
def inc_refcnt : List lookup_table_entry → Nat → List lookup_table_entry
  | [], _ => []
  | e :: r, h =>
    if e.hash == h then { e with refcnt := e.refcnt + 1 } :: r
    else e :: inc_refcnt r h

/-- The non-directory branch of `build_dentry_tree` (`modify.c` lines
104–144): if the file's content hash is in the lookup table, increment
that entry's refcount, else insert a fresh entry (refcount 1, part
number 1, sizes from `stat`, pointing at the file on disk). -/
def build_dentry_tree_nondir (tbl : List lookup_table_entry)
    (source_path : String) (st_size : Nat) (h : Nat) : List lookup_table_entry :=
  match lookup_resource tbl h with
  | some _ => inc_refcnt tbl h
  | none =>
    lookup_table_insert tbl
      { new_lookup_table_entry with
        file_on_disk := source_path, flags := 0, refcnt := 1, part_number := 1,
        original_size := st_size, size := st_size, hash := h }

/-- Capture of a list of non-directory files (path, size, content hash),
folding `build_dentry_tree`'s interning over the tree's files. -/
def build_dentry_tree_capture (files : List (String × Nat × Nat))
    (tbl : List lookup_table_entry) : List lookup_table_entry :=
  match files with
  | [] => tbl
  | f :: rest => build_dentry_tree_capture rest (build_dentry_tree_nondir tbl f.1 f.2.1 f.2.2)

/-- NTFS-capture lookup-table entry (`ntfs-3g_capture.c`): location is an
NTFS volume path plus stream, and reparse streams drop their 8-byte
header from the recorded sizes. -/
structure ntfs_lookup_table_entry where
  hash : Nat
  refcnt : Nat
  size : Nat
  original_size : Nat
  path_utf8 : String
  is_reparse_point : Bool
deriving Repr, DecidableEq

/-- `__lookup_resource` on the NTFS-capture table. -/
def ntfs_lookup_resource (tbl : List ntfs_lookup_table_entry) (h : Nat) :
    Option ntfs_lookup_table_entry :=
  tbl.find? (fun e => e.hash == h)

/-- `lte->refcnt++` on the found NTFS entry. -/
def ntfs_inc_refcnt : List ntfs_lookup_table_entry → Nat → List ntfs_lookup_table_entry
  | [], _ => []
  | e :: r, h =>
    if e.hash == h then { e with refcnt := e.refcnt + 1 } :: r
    else e :: ntfs_inc_refcnt r h

/-- The per-stream interning step of `capture_ntfs_streams`
(`ntfs-3g_capture.c` lines 305–350): reuse and bump an existing entry
with the same hash, else insert a fresh one (refcount 1 per
`new_lookup_table_entry`, modelled from the spec) whose sizes are
`data_size`, less the 8-byte reparse header for reparse streams. -/
def capture_ntfs_stream (tbl : List ntfs_lookup_table_entry)
    (path : String) (data_size : Nat) (is_rp : Bool) (h : Nat) :
    List ntfs_lookup_table_entry :=
  match ntfs_lookup_resource tbl h with
  | some _ => ntfs_inc_refcnt tbl h
  | none =>
    { hash := h, refcnt := 1,
      size := if is_rp then data_size - 8 else data_size,
      original_size := if is_rp then data_size - 8 else data_size,
      path_utf8 := path, is_reparse_point := is_rp } :: tbl

/-! ## XML property inference warnings (`xml_windows.c`)

`set_windows_specific_info` (lines 660–695) computes
`debug_enabled = (tgetenv(T("WIMLIB_DEBUG_XML_INFO")) != NULL)` and every
warning about unexpected registry or file contents goes through the
`XML_WARN` macro (lines 52–54), which prints only when `debug_enabled`.
The environment is a map from variable names to optional values; warning
emission is modelled as a count. -/

/-- The `debug_enabled` field of `struct windows_info_ctx` as initialised
by `set_windows_specific_info` (`xml_windows.c` line 669). -/
def debug_enabled (env : String → Option String) : Bool :=
  (env "WIMLIB_DEBUG_XML_INFO").isSome

/-- The `XML_WARN` macro (`xml_windows.c` lines 52–54): emit one warning
iff the context's debug flag is set. -/
def XML_WARN (dbg : Bool) (warnings : Nat) : Nat :=
  if dbg then warnings + 1 else warnings

/-- Registry-hive operation status (`registry.h` is not among the provided
sources; constructors follow the spec's description of hive probing). -/
inductive hive_status where
  | HIVE_OK
  | HIVE_CORRUPT
  | HIVE_UNSUPPORTED
  | HIVE_KEY_NOT_FOUND
  | HIVE_VALUE_NOT_FOUND
  | HIVE_VALUE_INVALID
  | HIVE_OUT_OF_MEMORY
deriving Repr, DecidableEq

/-- `check_hive_status` (`xml_windows.c` lines 101–112): success iff the
status is `HIVE_OK`; on failure an `XML_WARN` is issued (so it is printed
only when debugging is enabled).  Returns (success, warnings emitted). -/
def check_hive_status (dbg : Bool) (status : hive_status) : Bool × Nat :=
  if status = .HIVE_OK then (true, 0)
  else (false, XML_WARN dbg 0)

/-- `pe_arch_to_windows_arch` (`xml_windows.c` lines 386–404). -/
def pe_arch_to_windows_arch (pe_arch : Nat) : Int :=
  if pe_arch = 0x014C then 0        -- i386 → INTEL
  else if pe_arch = 0x01C0 then 5   -- ARM
  else if pe_arch = 0x01C4 then 5   -- ARMV7
  else if pe_arch = 0x01C2 then 5   -- THUMB
  else if pe_arch = 0x0200 then 6   -- IA64
  else if pe_arch = 0x8664 then 9   -- AMD64
  else if pe_arch = 0xAA64 then 12  -- ARM64
  else -1

/-- `set_info_from_kernel32` (`xml_windows.c` lines 407–442): parse the PE
header of kernel32.dll; set the `WINDOWS/ARCH` property on success, and
`XML_WARN` on anything unexpected.  Returns (properties set, warnings
emitted). -/
def set_info_from_kernel32 (dbg : Bool) (contents : List Nat) :
    List (String × Int) × Nat :=
  let size := contents.length
  if size < 0x40 then ([], XML_WARN dbg 0)
  else
    let e_lfanew := leNat ((contents.drop 0x3C).take 4)
    if e_lfanew > size ∨ size - e_lfanew < 6 ∨ e_lfanew &&& 3 ≠ 0 then
      ([], XML_WARN dbg 0)
    else if leNat ((contents.drop e_lfanew).take 4) ≠ 0x00004550 then
      ([], XML_WARN dbg 0)
    else
      let pe_arch := leNat ((contents.drop (e_lfanew + 4)).take 2)
      let arch := pe_arch_to_windows_arch pe_arch
      if arch ≥ 0 then ([("WINDOWS/ARCH", arch)], 0)
      else ([], XML_WARN dbg 0)

/-! ## Helper lemmas on masks and encodings -/

theorem and_lo_mask (n : Nat) : n &&& 0x3fffffffffffffff = n % 2 ^ 62 := by
  have h : (0x3fffffffffffffff : Nat) = 2 ^ 62 - 1 := by norm_num
  rw [h, Nat.and_pow_two_sub_one_eq_mod]

theorem and_hi_mask_eq_zero_iff (n : Nat) :
    n &&& 0xc000000000000000 = 0 ↔
      n.testBit 62 = false ∧ n.testBit 63 = false := by
  have hc : (0xc000000000000000 : Nat) = 2 ^ 62 ||| 2 ^ 63 := by decide
  constructor
  · intro h
    have h62 := congrArg (fun m => m.testBit 62) h
    have h63 := congrArg (fun m => m.testBit 63) h
    have hb62 : Nat.testBit 0xc000000000000000 62 = true := by decide
    have hb63 : Nat.testBit 0xc000000000000000 63 = true := by decide
    simp only [Nat.testBit_and, Nat.zero_testBit, hb62, hb63, Bool.and_true] at h62 h63
    exact ⟨h62, h63⟩
  · rintro ⟨h62, h63⟩
    apply Nat.eq_of_testBit_eq
    intro i
    simp only [Nat.testBit_and, Nat.zero_testBit, hc, Nat.testBit_or, Nat.testBit_two_pow]
    by_cases h1 : 62 = i
    · subst h1; simp [h62]
    · by_cases h2 : 63 = i
      · subst h2; simp [h63]
      · simp [h1, h2]

theorem and_hi_mask_ne_zero_iff (n : Nat) :
    n &&& 0xc000000000000000 ≠ 0 ↔
      (n.testBit 62 = true ∨ n.testBit 63 = true) := by
  rw [Ne, and_hi_mask_eq_zero_iff]
  constructor
  · intro h
    by_cases h62 : n.testBit 62
    · exact Or.inl h62
    · by_cases h63 : n.testBit 63
      · exact Or.inr h63
      · exact absurd ⟨Bool.eq_false_iff.mpr h62, Bool.eq_false_iff.mpr h63⟩ h
  · rintro (h | h) ⟨h62, h63⟩
    · rw [h] at h62; cases h62
    · rw [h] at h63; cases h63

theorem and_hi_mask_of_lt {n : Nat} (h : n < 2 ^ 62) :
    n &&& 0xc000000000000000 = 0 :=
  (and_hi_mask_eq_zero_iff n).mpr
    ⟨Nat.testBit_lt_two_pow h,
     Nat.testBit_lt_two_pow (lt_trans h (by norm_num))⟩

/-! ## Claim C3 — chunk-table entry width

For every compressed resource, the chunk-offset-table entry width used
by the reader is 4 bytes when the uncompressed size is strictly below
`2^32` and 8 bytes when it is at least `2^32`. -/

/-- C3: the reader's chunk-table entry width is 4 bytes for resources of
uncompressed size below `2^32` and 8 bytes from `2^32` up; this is the
width `read_compressed_resource` records and uses for every table access. -/
theorem C3_chunk_entry_size (ruc : Nat) :
    (ruc < 2 ^ 32 → RCR.chunk_entry_size ruc = 4) ∧
    (2 ^ 32 ≤ ruc → RCR.chunk_entry_size ruc = 8) ∧
    (∀ (dec : Decompressor) (rcs roff len offset : Nat) (file : List Nat),
      len ≠ 0 →
      (read_compressed_resource dec rcs ruc roff len offset file).2.chunkEntrySize =
        RCR.chunk_entry_size ruc) := by
  refine ⟨fun h => ?_, fun h => ?_, fun dec rcs roff len offset file hlen => ?_⟩
  · simp [RCR.chunk_entry_size, Nat.not_le.mpr h]
    omega
  · simp [RCR.chunk_entry_size, h]
    omega
  · unfold read_compressed_resource
    simp only [hlen, if_false]
    cases fread (fseek_set { file := file, pos := 0 }
        (roff + RCR.start_table_idx offset * RCR.chunk_entry_size ruc))
        (RCR.num_needed_chunk_entries ruc offset len * RCR.chunk_entry_size ruc) with
    | none => rfl
    | some v => rfl

/-- Witness for C3 at concrete sizes on both sides of the `2^32` boundary. -/
theorem C3_chunk_entry_size_witness :
    RCR.chunk_entry_size 65536 = 4 ∧ RCR.chunk_entry_size (2 ^ 32) = 8 :=
  ⟨(C3_chunk_entry_size 65536).1 (by norm_num),
   (C3_chunk_entry_size (2 ^ 32)).2.1 (le_refl _)⟩

/-! ## Claim C7 — masking of reserved resource-entry bits -/

/-- C7: `get_resource_entry` parses the `offset` and `original_size`
fields unchanged when neither of their upper two bits (62 and 63) is
set; when either is set, it clears both (reducing the value modulo
`2^62`) and issues exactly one warning per affected field. -/
theorem C7_get_resource_entry_masking (p : List Nat) :
    (¬((leNat ((p.drop 8).take 8)).testBit 62 = true ∨
        (leNat ((p.drop 8).take 8)).testBit 63 = true) →
      (get_resource_entry p).1.offset = leNat ((p.drop 8).take 8)) ∧
    (((leNat ((p.drop 8).take 8)).testBit 62 = true ∨
        (leNat ((p.drop 8).take 8)).testBit 63 = true) →
      (get_resource_entry p).1.offset = leNat ((p.drop 8).take 8) % 2 ^ 62) ∧
    (¬((leNat ((p.drop 16).take 8)).testBit 62 = true ∨
        (leNat ((p.drop 16).take 8)).testBit 63 = true) →
      (get_resource_entry p).1.original_size = leNat ((p.drop 16).take 8)) ∧
    (((leNat ((p.drop 16).take 8)).testBit 62 = true ∨
        (leNat ((p.drop 16).take 8)).testBit 63 = true) →
      (get_resource_entry p).1.original_size = leNat ((p.drop 16).take 8) % 2 ^ 62) ∧
    (get_resource_entry p).1.size = leNat (p.take 7) ∧
    (get_resource_entry p).2.2 =
      (if (leNat ((p.drop 8).take 8)).testBit 62 = true ∨
          (leNat ((p.drop 8).take 8)).testBit 63 = true then 1 else 0) +
      (if (leNat ((p.drop 16).take 8)).testBit 62 = true ∨
          (leNat ((p.drop 16).take 8)).testBit 63 = true then 1 else 0) := by
  have hdrop8 : (p.drop 7).drop 1 = p.drop 8 := by
    rw [List.drop_drop]
  have hdrop16 : (p.drop 8).drop 8 = p.drop 16 := by
    rw [List.drop_drop]
  simp only [get_resource_entry, get_u56, get_u8, get_u64, hdrop8, hdrop16]
  have hA := and_hi_mask_ne_zero_iff (leNat ((p.drop 8).take 8))
  have hB := and_hi_mask_ne_zero_iff (leNat ((p.drop 16).take 8))
  by_cases ha : (leNat ((p.drop 8).take 8)).testBit 62 = true ∨
      (leNat ((p.drop 8).take 8)).testBit 63 = true <;>
    by_cases hb : (leNat ((p.drop 16).take 8)).testBit 62 = true ∨
        (leNat ((p.drop 16).take 8)).testBit 63 = true
  · rw [if_pos (hA.mpr ha), if_pos (hB.mpr hb)]
    simp [ha, hb, and_lo_mask]
  · rw [if_pos (hA.mpr ha), if_neg (fun h => hb (hB.mp h))]
    simp [ha, hb, and_lo_mask]
  · rw [if_neg (fun h => ha (hA.mp h)), if_pos (hB.mpr hb)]
    simp [ha, hb, and_lo_mask]
  · rw [if_neg (fun h => ha (hA.mp h)), if_neg (fun h => hb (hB.mp h))]
    simp [ha, hb, and_lo_mask]

/-- Witness for C7: a concrete 24-byte entry whose offset field has bit
63 set (masked, one warning) and whose original-size field does not
(parsed unchanged). -/
theorem C7_get_resource_entry_masking_witness :
    (get_resource_entry
        ([1,0,0,0,0,0,0] ++ [2] ++ [0,0,0,0,0,0,0,0x80] ++ [3,0,0,0,0,0,0,0])).1.offset =
      leNat (((([1,0,0,0,0,0,0] ++ [2] ++ [0,0,0,0,0,0,0,0x80] ++
          [3,0,0,0,0,0,0,0]) : List Nat).drop 8).take 8) % 2 ^ 62 ∧
    (get_resource_entry
        ([1,0,0,0,0,0,0] ++ [2] ++ [0,0,0,0,0,0,0,0x80] ++ [3,0,0,0,0,0,0,0])).1.original_size =
      leNat (((([1,0,0,0,0,0,0] ++ [2] ++ [0,0,0,0,0,0,0,0x80] ++
          [3,0,0,0,0,0,0,0]) : List Nat).drop 16).take 8) :=
  ⟨(C7_get_resource_entry_masking _).2.1 (by decide),
   (C7_get_resource_entry_masking _).2.2.1 (by decide)⟩

/-! ## Claim C8 — resource-entry serialisation round-trip -/

/-- C8: for entries whose stored size fits in 56 bits and whose offset
and original size stay below `2^62` (and flags in one byte, as the C
`u8` field guarantees), `put_resource_entry` emits exactly 24 bytes and
`get_resource_entry` parses them back to the identical entry, consuming
exactly those 24 bytes and leaving any trailing bytes untouched. -/
theorem C8_resource_entry_roundtrip (e : resource_entry)
    (hs : e.size < 2 ^ 56) (hf : e.flags < 2 ^ 8)
    (ho : e.offset < 2 ^ 62) (hos : e.original_size < 2 ^ 62) :
    (put_resource_entry e).length = 24 ∧
    ∀ tail : List Nat, get_resource_entry (put_resource_entry e ++ tail) = (e, tail, 0) := by
  constructor
  · simp [put_resource_entry, put_u56, put_u8, put_u64, leBytes_length]
  · intro tail
    have h56 : leNat (put_u56 e.size) = e.size := by
      rw [put_u56, leNat_leBytes]
      exact Nat.mod_eq_of_lt (by norm_num at hs ⊢; omega)
    have h64o : leNat (put_u64 e.offset) = e.offset := by
      rw [put_u64, leNat_leBytes]
      refine Nat.mod_eq_of_lt (lt_trans ho (by norm_num))
    have h64os : leNat (put_u64 e.original_size) = e.original_size := by
      rw [put_u64, leNat_leBytes]
      refine Nat.mod_eq_of_lt (lt_trans hos (by norm_num))
    have hlen56 : (put_u56 e.size).length = 7 := leBytes_length 7 _
    have hlen8 : (put_u8 e.flags).length = 1 := leBytes_length 1 _
    have hlen64o : (put_u64 e.offset).length = 8 := leBytes_length 8 _
    have hmask_o := and_hi_mask_of_lt ho
    have hmask_os := and_hi_mask_of_lt hos
    rw [put_resource_entry]
    rw [List.append_assoc, List.append_assoc, List.append_assoc]
    simp only [get_resource_entry, get_u56, get_u8, get_u64]
    rw [List.take_left' hlen56, List.drop_left' hlen56]
    have hu8 : put_u8 e.flags = [e.flags % 256] := rfl
    have hflags : e.flags % 256 = e.flags := Nat.mod_eq_of_lt (by norm_num at hf ⊢; omega)
    simp only [hu8, List.cons_append, List.nil_append, List.headD_cons, List.drop_succ_cons,
      List.drop_zero]
    rw [List.take_left' hlen64o, List.drop_left' hlen64o]
    have hlen64os : (put_u64 e.original_size).length = 8 := leBytes_length 8 _
    rw [List.take_left' hlen64os, List.drop_left' hlen64os]
    rw [h56, h64o, h64os]
    simp only [hmask_o, hmask_os, ne_eq, not_true_eq_false, if_false, ite_false,
      not_false_eq_true, hflags]

/-- Witness for C8 at a concrete in-range entry. -/
theorem C8_resource_entry_roundtrip_witness :
    (put_resource_entry ⟨300, 4, 4096, 70000⟩).length = 24 ∧
    get_resource_entry (put_resource_entry ⟨300, 4, 4096, 70000⟩ ++ [9, 9]) =
      (⟨300, 4, 4096, 70000⟩, [9, 9], 0) :=
  ⟨(C8_resource_entry_roundtrip ⟨300, 4, 4096, 70000⟩ (by norm_num) (by norm_num)
      (by norm_num) (by norm_num)).1,
   (C8_resource_entry_roundtrip ⟨300, 4, 4096, 70000⟩ (by norm_num) (by norm_num)
      (by norm_num) (by norm_num)).2 [9, 9]⟩

/-! ## Claims C1, C2, C4 — the compressed-resource read path -/

theorem chunk_loop_ok_processed (dec : Decompressor) (rcs ruc offset len : Nat)
    (offsets : List Nat) :
    ∀ (idxs : List Nat) (st : FileState) (out : List Nat),
      (RCR.chunk_loop dec rcs ruc offset len offsets idxs st).1 = .ok out →
      (RCR.chunk_loop dec rcs ruc offset len offsets idxs st).2.1 = idxs := by
  intro idxs
  induction idxs with
  | nil => intro st out _; rfl
  | cons i rest ih =>
    intro st out h
    rw [RCR.chunk_loop] at h ⊢
    rcases hpc : RCR.process_chunk dec rcs ruc offset len offsets i st with ⟨r, used⟩
    cases r with
    | error e =>
      rw [hpc] at h
      simp at h
    | ok v =>
      obtain ⟨bytes, st'⟩ := v
      rw [hpc] at h
      dsimp only at h ⊢
      cases hr : (RCR.chunk_loop dec rcs ruc offset len offsets rest st').1 with
      | error e => simp [hr, Except.map] at h
      | ok out' => rw [ih st' out' hr]

theorem num_needed_chunk_entries_eq (ruc offset len : Nat) :
    RCR.num_needed_chunk_entries ruc offset len =
      (RCR.end_chunk offset len - RCR.start_chunk offset + 1) +
        (if RCR.end_chunk offset len ≠ RCR.num_chunks ruc - 1 then 1 else 0) -
        (if RCR.start_chunk offset = 0 then 1 else 0) := by
  rw [RCR.num_needed_chunk_entries, RCR.num_needed_chunks]
  by_cases h : RCR.start_chunk offset = 0 <;> simp [h]

/-- C1: for every read with `len > 0`, `read_compressed_resource` works on
exactly the chunks `offset / 32768 .. (offset + len - 1) / 32768`: its
chunk-table load starts at entry `start_chunk - 1` (0 when
`start_chunk = 0`) and covers those chunks plus one extra entry exactly
when the end chunk is not the resource's last chunk, minus the entry for
chunk 0 — whose offset is the implicit value 0, not read from the table —
and on success the chunk loop processes exactly the chunks of that range. -/
theorem C1_read_compressed_resource_chunk_span
    (dec : Decompressor) (rcs ruc roff len offset : Nat) (file : List Nat)
    (hlen : 0 < len) :
    ((read_compressed_resource dec rcs ruc roff len offset file).2.startChunk =
        offset / 32768) ∧
    ((read_compressed_resource dec rcs ruc roff len offset file).2.endChunk =
        (offset + len - 1) / 32768) ∧
    ((read_compressed_resource dec rcs ruc roff len offset file).2.startTableIdx =
        if offset / 32768 = 0 then 0 else offset / 32768 - 1) ∧
    ((read_compressed_resource dec rcs ruc roff len offset file).2.numNeededChunkEntries =
        ((offset + len - 1) / 32768 - offset / 32768 + 1) +
          (if (offset + len - 1) / 32768 ≠
              (read_compressed_resource dec rcs ruc roff len offset file).2.numChunks - 1
           then 1 else 0) -
          (if offset / 32768 = 0 then 1 else 0)) ∧
    (∀ out, (read_compressed_resource dec rcs ruc roff len offset file).1 = .ok out →
      (read_compressed_resource dec rcs ruc roff len offset file).2.processedChunks =
        List.range' (offset / 32768) ((offset + len - 1) / 32768 - offset / 32768 + 1)) ∧
    (∀ out, (read_compressed_resource dec rcs ruc roff len offset file).1 = .ok out →
      offset / 32768 = 0 →
      (read_compressed_resource dec rcs ruc roff len offset file).2.chunkOffsets.head? =
        some 0) := by
  have hne : ¬ len = 0 := by omega
  have hsc : RCR.start_chunk offset = offset / 32768 := rfl
  have hec : RCR.end_chunk offset len = (offset + len - 1) / 32768 := rfl
  rcases hf : fread (fseek_set { file := file, pos := 0 }
      (roff + RCR.start_table_idx offset * RCR.chunk_entry_size ruc))
      (RCR.num_needed_chunk_entries ruc offset len * RCR.chunk_entry_size ruc)
    with _ | ⟨tabbuf, st2⟩ <;>
    simp only [read_compressed_resource, hne, if_false, hf] <;>
    refine ⟨rfl, rfl, ?_, ?_, ?_, ?_⟩
  · rw [RCR.start_table_idx, hsc]
  · rw [num_needed_chunk_entries_eq, hsc, hec]
  · intro out h; simp at h
  · intro out h; simp at h
  · rw [RCR.start_table_idx, hsc]
  · rw [num_needed_chunk_entries_eq, hsc, hec]
  · intro out h
    rw [← hsc, ← hec]
    exact chunk_loop_ok_processed dec rcs ruc offset len _ _ _ out h
  · intro _ _ h0
    rw [← hsc] at h0
    simp [h0]

/-- Witness for C1: a successful verbatim read of a whole 5-byte
single-chunk resource. -/
theorem C1_read_compressed_resource_chunk_span_witness :
    ((read_compressed_resource (fun _ _ => none) 5 5 0 5 0 [1, 2, 3, 4, 5]).2.processedChunks =
        List.range' (0 / 32768) ((0 + 5 - 1) / 32768 - 0 / 32768 + 1)) ∧
    ((read_compressed_resource (fun _ _ => none) 5 5 0 5 0 [1, 2, 3, 4, 5]).2.chunkOffsets.head? =
        some 0) :=
  ⟨(C1_read_compressed_resource_chunk_span (fun _ _ => none) 5 5 0 5 0 [1, 2, 3, 4, 5]
      (by norm_num)).2.2.2.2.1 [1, 2, 3, 4, 5] (by rfl),
   (C1_read_compressed_resource_chunk_span (fun _ _ => none) 5 5 0 5 0 [1, 2, 3, 4, 5]
      (by norm_num)).2.2.2.2.2 [1, 2, 3, 4, 5] (by rfl) (by norm_num)⟩

/-- C2: a chunk whose derived compressed size equals its uncompressed
size is read verbatim: the reader's behaviour on it is independent of
the decompressor (so neither LZX nor XPRESS is ever invoked — the
decompressor-used flag is `false`), and the bytes it outputs are exactly
the stored bytes of the chunk. -/
theorem C2_verbatim_chunk (d1 d2 : Decompressor) (rcs ruc offset len : Nat)
    (offsets : List Nat) (i : Nat) (st : FileState)
    (h : RCR.compressed_chunk_size rcs ruc offsets (RCR.start_chunk offset) i =
         RCR.uncompressed_chunk_size ruc i) :
    (RCR.process_chunk d1 rcs ruc offset len offsets i st =
        RCR.process_chunk d2 rcs ruc offset len offsets i st) ∧
    ((RCR.process_chunk d1 rcs ruc offset len offsets i st).2 = false) ∧
    (∀ bytes st',
      (RCR.process_chunk d1 rcs ruc offset len offsets i st).1 = .ok (bytes, st') →
      bytes = (st.file.drop (st.pos + RCR.chunk_start_offset offset i)).take
        (RCR.chunk_end_offset offset len i + 1 - RCR.chunk_start_offset offset i)) := by
  have hst1 : (if RCR.chunk_start_offset offset i ≠ 0 then
      fseek_cur st (RCR.chunk_start_offset offset i) else st) =
      ⟨st.file, st.pos + RCR.chunk_start_offset offset i⟩ := by
    by_cases hso : RCR.chunk_start_offset offset i ≠ 0
    · rw [if_pos hso]; rfl
    · rw [if_neg hso]
      push_neg at hso
      cases st
      simp [hso, fseek_cur]
  have key : ∀ d : Decompressor, RCR.process_chunk d rcs ruc offset len offsets i st =
      (match fread ⟨st.file, st.pos + RCR.chunk_start_offset offset i⟩
          (RCR.chunk_end_offset offset len i + 1 - RCR.chunk_start_offset offset i) with
        | none => (.error .READ, false)
        | some (bytes, st2) => (.ok (bytes, st2), false)) := by
    intro d
    simp only [RCR.process_chunk, h, eq_self_iff_true, if_true, ite_true, hst1]
  refine ⟨by rw [key d1, key d2], ?_, ?_⟩
  · rw [key d1]
    rcases hf : fread ⟨st.file, st.pos + RCR.chunk_start_offset offset i⟩
        (RCR.chunk_end_offset offset len i + 1 - RCR.chunk_start_offset offset i)
      with _ | ⟨bytes, st2⟩ <;> simp [hf]
  · intro bytes st'
    rw [key d1]
    rcases hf : fread ⟨st.file, st.pos + RCR.chunk_start_offset offset i⟩
        (RCR.chunk_end_offset offset len i + 1 - RCR.chunk_start_offset offset i)
      with _ | ⟨bytes', st2⟩ <;> simp only [hf]
    · intro hcon; simp at hcon
    · intro hok
      rw [fread] at hf
      split at hf
      · simp only [Option.some.injEq, Prod.mk.injEq] at hf
        simp only [Except.ok.injEq, Prod.mk.injEq] at hok
        rw [← hok.1, ← hf.1]
      · cases hf

/-- Witness for C2: the single chunk of a 5-byte stored-verbatim resource. -/
theorem C2_verbatim_chunk_witness :
    (RCR.process_chunk (fun _ _ => some [0]) 5 5 0 5 [0] 0 ⟨[1, 2, 3, 4, 5], 0⟩ =
        RCR.process_chunk (fun _ _ => none) 5 5 0 5 [0] 0 ⟨[1, 2, 3, 4, 5], 0⟩) ∧
    ((RCR.process_chunk (fun _ _ => some [0]) 5 5 0 5 [0] 0 ⟨[1, 2, 3, 4, 5], 0⟩).2 = false) :=
  ⟨(C2_verbatim_chunk (fun _ _ => some [0]) (fun _ _ => none) 5 5 0 5 [0] 0
      ⟨[1, 2, 3, 4, 5], 0⟩ (by decide)).1,
   (C2_verbatim_chunk (fun _ _ => some [0]) (fun _ _ => none) 5 5 0 5 [0] 0
      ⟨[1, 2, 3, 4, 5], 0⟩ (by decide)).2.1⟩

theorem process_chunk_err (dec : Decompressor) (rcs ruc offset len : Nat)
    (offsets : List Nat) (i : Nat) (st : FileState) :
    ∀ e used, RCR.process_chunk dec rcs ruc offset len offsets i st = (.error e, used) →
      e = .READ ∨ e = .DECOMPRESSION := by
  intro e used h
  simp only [RCR.process_chunk] at h
  split at h
  · split at h
    · simp only [Prod.mk.injEq, Except.error.injEq] at h
      exact Or.inl h.1.symm
    · simp only [Prod.mk.injEq] at h
      cases h.1
  · split at h
    · simp only [Prod.mk.injEq, Except.error.injEq] at h
      exact Or.inl h.1.symm
    · split at h
      · simp only [Prod.mk.injEq, Except.error.injEq] at h
        exact Or.inr h.1.symm
      · split at h <;> simp only [Prod.mk.injEq] at h <;> cases h.1

theorem chunk_loop_err (dec : Decompressor) (rcs ruc offset len : Nat)
    (offsets : List Nat) :
    ∀ (idxs : List Nat) (st : FileState) (e : WimErr),
      (RCR.chunk_loop dec rcs ruc offset len offsets idxs st).1 = .error e →
      e = .READ ∨ e = .DECOMPRESSION := by
  intro idxs
  induction idxs with
  | nil => intro st e h; simp [RCR.chunk_loop] at h
  | cons i rest ih =>
    intro st e h
    rw [RCR.chunk_loop] at h
    rcases hpc : RCR.process_chunk dec rcs ruc offset len offsets i st with ⟨r, used⟩
    cases r with
    | error e2 =>
      rw [hpc] at h
      dsimp only at h
      injection h with he
      rw [← he]
      exact process_chunk_err dec rcs ruc offset len offsets i st e2 used hpc
    | ok v =>
      obtain ⟨bytes, st'⟩ := v
      rw [hpc] at h
      dsimp only at h
      cases hr : (RCR.chunk_loop dec rcs ruc offset len offsets rest st').1 with
      | error e2 =>
        rw [hr] at h
        simp only [Except.map, Except.error.injEq] at h
        rw [← h]
        exact ih st' e2 hr
      | ok out' => rw [hr] at h; simp [Except.map] at h

/-! ## Claim C4 — no chunk-size validation (corrected)

The claim says a negative or oversized derived chunk size makes the
read fail with a corrupt-resource error before the chunk is read or
decompressed.  The code has no such check: the u64 differences wrap,
the result is truncated to a 32-bit `unsigned`, and the reader proceeds
to read (and, if the sizes differ, decompress) the chunk, so any
failure surfaces only as a read or decompression error. -/

/-- Counterexample to C4 as stated.  A two-chunk resource (uncompressed
size 65536) whose stored size (4) is smaller than the chunk table plus
the last chunk's offset (100) makes the last chunk's derived compressed
size negative; it wraps to `2^32 - 100 = 4294967196` (far above 32 KiB +
slack).  Reading that chunk (offset 32768, length 32768) does not fail
with a corrupt-resource error: the reader proceeds to chunk 1 and fails
with a `READ` error while trying to read the oversized chunk. -/
theorem C4_counterexample :
    RCR.compressed_chunk_size 4 65536 [100] 1 1 = 4294967196 ∧
    (read_compressed_resource (fun _ _ => none) 4 65536 0 32768 32768
        [100, 0, 0, 0]).1 = .error .READ ∧
    ¬((read_compressed_resource (fun _ _ => none) 4 65536 0 32768 32768
        [100, 0, 0, 0]).1 = .error .CORRUPT_RESOURCE) ∧
    (read_compressed_resource (fun _ _ => none) 4 65536 0 32768 32768
        [100, 0, 0, 0]).2.processedChunks = [1] := by
  refine ⟨by rfl, by rfl, ?_, by rfl⟩
  intro h
  rw [show (read_compressed_resource (fun _ _ => none) 4 65536 0 32768 32768
      [100, 0, 0, 0]).1 = .error .READ from rfl] at h
  cases h

/-- C4 (amended): `read_compressed_resource` performs no validation of
derived chunk sizes — a negative derivation wraps modulo `2^64` and is
truncated to 32 bits, and the reader proceeds to read and decompress
the chunk; its only failure modes are `READ` and `DECOMPRESSION`
errors, and in particular it never returns the spec's corrupt-resource
error. -/
theorem C4_no_chunk_size_validation (dec : Decompressor)
    (rcs ruc roff len offset : Nat) (file : List Nat) :
    ∀ e, (read_compressed_resource dec rcs ruc roff len offset file).1 = .error e →
      e = .READ ∨ e = .DECOMPRESSION := by
  intro e h
  by_cases hlen : len = 0
  · simp [read_compressed_resource, hlen] at h
  · rcases hf : fread (fseek_set { file := file, pos := 0 }
        (roff + RCR.start_table_idx offset * RCR.chunk_entry_size ruc))
        (RCR.num_needed_chunk_entries ruc offset len * RCR.chunk_entry_size ruc)
      with _ | ⟨tabbuf, st2⟩ <;>
      simp only [read_compressed_resource, hlen, if_false, hf] at h
    · cases h
      exact Or.inl rfl
    · exact chunk_loop_err dec rcs ruc offset len _ _ _ e h

/-- Witness for C4 (amended) at the counterexample input, where the
reader fails with a `READ` error. -/
theorem C4_no_chunk_size_validation_witness :
    WimErr.READ = WimErr.READ ∨ WimErr.READ = WimErr.DECOMPRESSION :=
  C4_no_chunk_size_validation (fun _ _ => none) 4 65536 0 32768 32768
    [100, 0, 0, 0] .READ (by rfl)

/-! ## Claims C5, C10 — SHA-1 verification in `extract_wim_resource` -/

theorem take_append_drop_take {α : Type} (l : List α) (m n : Nat) :
    l.take m ++ (l.drop m).take n = l.take (m + n) := by
  induction l generalizing m with
  | nil => simp
  | cons a t ih =>
    cases m with
    | zero => simp
    | succ m =>
      simp only [List.take_succ_cons, List.drop_succ_cons, List.cons_append, Nat.succ_add]
      rw [ih]

theorem extract_loop_acc (lte : wim_lookup_table_entry) (ec : ExtractChunkFn)
    (bufsz : Nat) (hbuf : 0 < bufsz) (hec : ∀ b n, ec b n = none) :
    ∀ (rem off : Nat) (acc : List Nat),
      extract_loop lte ec true bufsz rem off acc =
        .ok (acc ++ (lte.attached_buffer.drop off).take rem) := by
  intro rem
  induction rem using Nat.strong_induction_on with
  | _ rem ih =>
    intro off acc
    rw [extract_loop]
    by_cases hr : rem = 0
    · simp [hr]
    · rw [dif_neg hr]
      have ht : ¬ min rem bufsz = 0 := by
        simp only [Nat.min_eq_zero_iff]
        omega
      rw [dif_neg ht]
      dsimp only
      rw [hec]
      rw [ih (rem - min rem bufsz) (by omega) (off + min rem bufsz) _]
      simp only [if_true, ite_true, read_wim_resource, List.append_assoc]
      rw [← List.drop_drop, take_append_drop_take]
      have hm : min rem bufsz + (rem - min rem bufsz) = rem := by omega
      rw [hm]

theorem extract_loop_err (lte : wim_lookup_table_entry) (ec : ExtractChunkFn)
    (check : Bool) (bufsz : Nat) :
    ∀ (rem off : Nat) (acc : List Nat) (e : WimErr),
      extract_loop lte ec check bufsz rem off acc = .error e →
      ∃ b n, ec b n = some e := by
  intro rem
  induction rem using Nat.strong_induction_on with
  | _ rem ih =>
    intro off acc e h
    rw [extract_loop] at h
    by_cases hr : rem = 0
    · simp [hr] at h
    · rw [dif_neg hr] at h
      by_cases ht : min rem bufsz = 0
      · rw [dif_pos ht] at h
        cases h
      · rw [dif_neg ht] at h
        dsimp only at h
        cases hc : ec (read_wim_resource lte (min rem bufsz) off) off with
        | some e2 =>
          rw [hc] at h
          dsimp only at h
          injection h with he
          exact ⟨_, _, he ▸ hc⟩
        | none =>
          rw [hc] at h
          dsimp only at h
          exact ih (rem - min rem bufsz) (by omega) _ _ e h

/-- C5: when `extract_wim_resource` is asked for the full resource, the
SHA-1 digest of all extracted bytes is compared against the blob's
stored hash: a mismatch yields `INVALID_RESOURCE_HASH`, a match yields
success (assuming the per-chunk extraction callback succeeds). -/
theorem C5_extract_full_resource_verifies_hash (sha1 : List Nat → List Nat)
    (lte : wim_lookup_table_entry) (ec : ExtractChunkFn) (size : Nat)
    (h1 : size = wim_resource_size lte)
    (h2 : lte.attached_buffer.length = wim_resource_size lte)
    (h3 : ∀ b n, ec b n = none) :
    extract_wim_resource sha1 lte size ec =
      (if sha1 lte.attached_buffer = lte.hash then .ok ()
       else .error .INVALID_RESOURCE_HASH) := by
  have hch : (size == wim_resource_size lte) = true := by
    rw [h1]; exact beq_self_eq_true _
  by_cases hz : size = 0
  · subst hz
    have hab : lte.attached_buffer = [] :=
      List.eq_nil_of_length_eq_zero (by omega)
    rw [extract_wim_resource]
    simp only [hch]
    rw [extract_loop]
    simp only [dif_pos rfl]
    rw [hab]
    by_cases hsh : sha1 [] = lte.hash <;> simp [hsh]
  · have hbuf : 0 < min WIM_CHUNK_SIZE size := by
      have : WIM_CHUNK_SIZE = 32768 := rfl
      omega
    rw [extract_wim_resource]
    simp only [hch]
    rw [extract_loop_acc lte ec _ hbuf h3 size 0 []]
    have hacc : ([] : List Nat) ++ (lte.attached_buffer.drop 0).take size =
        lte.attached_buffer := by
      rw [List.nil_append, List.drop_zero, h1, ← h2, List.take_length]
    rw [hacc]
    by_cases hsh : sha1 lte.attached_buffer = lte.hash <;> simp [hsh]

/-- Witness for C5 on a 3-byte resource whose stored hash matches
(`sha1` taken as the identity digest for the witness). -/
theorem C5_extract_full_resource_verifies_hash_witness :
    extract_wim_resource (fun l => l)
        ⟨⟨3, 0, 0, 3⟩, [1, 2, 3], [1, 2, 3]⟩ 3 (fun _ _ => none) =
      (if (fun l : List Nat => l) [1, 2, 3] = [1, 2, 3] then .ok ()
       else .error .INVALID_RESOURCE_HASH) :=
  C5_extract_full_resource_verifies_hash (fun l => l)
    ⟨⟨3, 0, 0, 3⟩, [1, 2, 3], [1, 2, 3]⟩ (fun _ _ => none) 3
    (by rfl) (by rfl) (fun _ _ => rfl)

/-- C10: when `extract_wim_resource` is asked for strictly fewer bytes
than the full resource, no SHA-1 verification is performed — the result
does not depend on the digest function — and `INVALID_RESOURCE_HASH` is
never returned (given that the extraction callback does not itself
produce that error, as no callback in the sources does). -/
theorem C10_partial_extract_skips_hash_check (sha1a sha1b : List Nat → List Nat)
    (lte : wim_lookup_table_entry) (ec : ExtractChunkFn) (size : Nat)
    (h1 : size < wim_resource_size lte)
    (h2 : ∀ b n, ec b n ≠ some .INVALID_RESOURCE_HASH) :
    extract_wim_resource sha1a lte size ec = extract_wim_resource sha1b lte size ec ∧
    extract_wim_resource sha1a lte size ec ≠ .error .INVALID_RESOURCE_HASH := by
  have hch : (size == wim_resource_size lte) = false := by
    simp only [beq_eq_false_iff_ne]
    omega
  constructor
  · simp only [extract_wim_resource, hch, Bool.false_eq_true, if_false, ite_false]
  · simp only [extract_wim_resource, hch]
    cases hl : extract_loop lte ec false (min WIM_CHUNK_SIZE size) size 0 [] with
    | error e =>
      intro hcon
      simp only [Bool.false_eq_true, if_false, ite_false] at hcon
      injection hcon with he
      exact h2 _ _ (he ▸ extract_loop_err lte ec false _ size 0 [] e hl |>.choose_spec.choose_spec)
    | ok acc =>
      intro hcon
      simp only [Bool.false_eq_true, if_false, ite_false] at hcon
      cases hcon

/-- Witness for C10: a 2-byte read out of a 3-byte resource succeeds
with no hash verification, for two different digest functions. -/
theorem C10_partial_extract_skips_hash_check_witness :
    (extract_wim_resource (fun l => l) ⟨⟨3, 0, 0, 3⟩, [1, 2, 3], [1, 2, 3]⟩ 2 (fun _ _ => none) =
      extract_wim_resource (fun _ => [9]) ⟨⟨3, 0, 0, 3⟩, [1, 2, 3], [1, 2, 3]⟩ 2 (fun _ _ => none)) ∧
    extract_wim_resource (fun l => l) ⟨⟨3, 0, 0, 3⟩, [1, 2, 3], [1, 2, 3]⟩ 2 (fun _ _ => none) ≠
      .error .INVALID_RESOURCE_HASH :=
  C10_partial_extract_skips_hash_check (fun l => l) (fun _ => [9])
    ⟨⟨3, 0, 0, 3⟩, [1, 2, 3], [1, 2, 3]⟩ (fun _ _ => none) 2
    (by norm_num [wim_resource_size]) (fun _ _ h => by cases h)

/-! ## Claim C6 — content deduplication at capture time -/

theorem inc_refcnt_length (tbl : List lookup_table_entry) (h : Nat) :
    (inc_refcnt tbl h).length = tbl.length := by
  induction tbl with
  | nil => rfl
  | cons e r ih =>
    rw [inc_refcnt]
    by_cases he : e.hash == h <;> simp [he, ih]

theorem countP_inc_refcnt (tbl : List lookup_table_entry) (h h2 : Nat) :
    (inc_refcnt tbl h).countP (fun e => e.hash == h2) =
      tbl.countP (fun e => e.hash == h2) := by
  induction tbl with
  | nil => rfl
  | cons e r ih =>
    rw [inc_refcnt]
    by_cases he : e.hash == h <;> simp [he, ih, List.countP_cons]

theorem lookup_resource_inc_refcnt (tbl : List lookup_table_entry) (h : Nat) :
    lookup_resource (inc_refcnt tbl h) h =
      (lookup_resource tbl h).map (fun e => { e with refcnt := e.refcnt + 1 }) := by
  induction tbl with
  | nil => rfl
  | cons e r ih =>
    rw [inc_refcnt]
    by_cases he : (e.hash == h) = true
    · rw [if_pos he]
      simp [lookup_resource, List.find?_cons, he]
    · rw [if_neg he]
      have he2 : (e.hash == h) = false := by simpa using he
      simp only [lookup_resource] at ih ⊢
      simp [List.find?_cons, he2, ih]

theorem lookup_resource_eq_none_iff (tbl : List lookup_table_entry) (h : Nat) :
    lookup_resource tbl h = none ↔ tbl.countP (fun e => e.hash == h) = 0 := by
  rw [lookup_resource, List.find?_eq_none, List.countP_eq_zero]

theorem countP_build_dentry_tree_nondir (tbl : List lookup_table_entry)
    (path : String) (sz h h2 : Nat) :
    (build_dentry_tree_nondir tbl path sz h).countP (fun e => e.hash == h2) =
      if h = h2 ∧ tbl.countP (fun e => e.hash == h2) = 0
      then tbl.countP (fun e => e.hash == h2) + 1
      else tbl.countP (fun e => e.hash == h2) := by
  rw [build_dentry_tree_nondir]
  cases hl : lookup_resource tbl h with
  | some e =>
    rw [countP_inc_refcnt]
    have hne : ¬ tbl.countP (fun e => e.hash == h) = 0 := by
      intro hc
      rw [← lookup_resource_eq_none_iff] at hc
      rw [hl] at hc
      cases hc
    by_cases he : h = h2
    · subst he
      rw [if_neg (fun hk => hne hk.2)]
    · rw [if_neg (fun hk => he hk.1)]
  | none =>
    rw [lookup_resource_eq_none_iff] at hl
    rw [lookup_table_insert, List.countP_cons]
    by_cases he : h = h2
    · subst he
      simp [hl]
    · have : (({ new_lookup_table_entry with
          file_on_disk := path, flags := 0, refcnt := 1, part_number := 1,
          original_size := sz, size := sz, hash := h } : lookup_table_entry).hash == h2) =
          false := by
        simp [new_lookup_table_entry, he]
      simp [this, he]

theorem countP_build_dentry_tree_capture (files : List (String × Nat × Nat)) :
    ∀ (tbl : List lookup_table_entry) (h : Nat),
      (build_dentry_tree_capture files tbl).countP (fun e => e.hash == h) =
        if h ∈ files.map (fun f => f.2.2) ∧ tbl.countP (fun e => e.hash == h) = 0
        then 1 else tbl.countP (fun e => e.hash == h) := by
  induction files with
  | nil => intro tbl h; simp [build_dentry_tree_capture]
  | cons f fs ih =>
    intro tbl h
    rw [build_dentry_tree_capture, ih, countP_build_dentry_tree_nondir]
    by_cases h1 : f.2.2 = h
    · subst h1
      by_cases h2 : tbl.countP (fun e => e.hash == f.2.2) = 0 <;>
        by_cases h3 : f.2.2 ∈ fs.map (fun f => f.2.2) <;>
          simp [h2, h3, List.mem_cons]
    · have h1b : ¬ h = f.2.2 := fun hk => h1 hk.symm
      by_cases h2 : tbl.countP (fun e => e.hash == h) = 0 <;>
        by_cases h3 : h ∈ fs.map (fun f => f.2.2) <;>
          simp [h1, h1b, h2, h3, List.mem_cons]

theorem ntfs_inc_refcnt_length (tbl : List ntfs_lookup_table_entry) (h : Nat) :
    (ntfs_inc_refcnt tbl h).length = tbl.length := by
  induction tbl with
  | nil => rfl
  | cons e r ih =>
    rw [ntfs_inc_refcnt]
    by_cases he : e.hash == h <;> simp [he, ih]

theorem ntfs_lookup_resource_inc_refcnt (tbl : List ntfs_lookup_table_entry) (h : Nat) :
    ntfs_lookup_resource (ntfs_inc_refcnt tbl h) h =
      (ntfs_lookup_resource tbl h).map (fun e => { e with refcnt := e.refcnt + 1 }) := by
  induction tbl with
  | nil => rfl
  | cons e r ih =>
    rw [ntfs_inc_refcnt]
    by_cases he : (e.hash == h) = true
    · rw [if_pos he]
      simp [ntfs_lookup_resource, List.find?_cons, he]
    · rw [if_neg he]
      have he2 : (e.hash == h) = false := by simpa using he
      simp only [ntfs_lookup_resource] at ih ⊢
      simp [List.find?_cons, he2, ih]

/-- C6: capture-time interning deduplicates content.  For the POSIX
capture path (`build_dentry_tree`): a file whose content hash is already
in the lookup table bumps that entry's refcount and inserts nothing (the
table keeps its size and the found entry reappears with refcount + 1),
while an unseen hash inserts a fresh entry with refcount 1; consequently
capturing any list of files into an empty table produces exactly one
entry per distinct content hash.  The NTFS stream-capture path
(`capture_ntfs_streams`) follows the same discipline. -/
theorem C6_capture_interning :
    (∀ (tbl : List lookup_table_entry) (path : String) (sz h : Nat)
        (e : lookup_table_entry),
      lookup_resource tbl h = some e →
        (build_dentry_tree_nondir tbl path sz h).length = tbl.length ∧
        lookup_resource (build_dentry_tree_nondir tbl path sz h) h =
          some { e with refcnt := e.refcnt + 1 }) ∧
    (∀ (tbl : List lookup_table_entry) (path : String) (sz h : Nat),
      lookup_resource tbl h = none →
        build_dentry_tree_nondir tbl path sz h =
          { new_lookup_table_entry with
              file_on_disk := path, flags := 0, refcnt := 1, part_number := 1,
              original_size := sz, size := sz, hash := h } :: tbl) ∧
    (∀ (files : List (String × Nat × Nat)) (h : Nat),
      (build_dentry_tree_capture files []).countP (fun e => e.hash == h) =
        if h ∈ files.map (fun f => f.2.2) then 1 else 0) ∧
    (∀ (tbl : List ntfs_lookup_table_entry) (path : String) (ds : Nat) (rp : Bool)
        (h : Nat) (e : ntfs_lookup_table_entry),
      ntfs_lookup_resource tbl h = some e →
        (capture_ntfs_stream tbl path ds rp h).length = tbl.length ∧
        ntfs_lookup_resource (capture_ntfs_stream tbl path ds rp h) h =
          some { e with refcnt := e.refcnt + 1 }) ∧
    (∀ (tbl : List ntfs_lookup_table_entry) (path : String) (ds : Nat) (rp : Bool)
        (h : Nat),
      ntfs_lookup_resource tbl h = none →
        capture_ntfs_stream tbl path ds rp h =
          { hash := h, refcnt := 1, size := if rp then ds - 8 else ds,
            original_size := if rp then ds - 8 else ds,
            path_utf8 := path, is_reparse_point := rp } :: tbl) := by
  refine ⟨?_, ?_, ?_, ?_, ?_⟩
  · intro tbl path sz h e hl
    rw [build_dentry_tree_nondir, hl]
    exact ⟨inc_refcnt_length tbl h,
      by rw [lookup_resource_inc_refcnt, hl]; rfl⟩
  · intro tbl path sz h hl
    rw [build_dentry_tree_nondir, hl]
    rfl
  · intro files h
    rw [countP_build_dentry_tree_capture]
    by_cases hm : h ∈ files.map (fun f => f.2.2) <;> simp [hm]
  · intro tbl path ds rp h e hl
    rw [capture_ntfs_stream, hl]
    exact ⟨ntfs_inc_refcnt_length tbl h,
      by rw [ntfs_lookup_resource_inc_refcnt, hl]; rfl⟩
  · intro tbl path ds rp h hl
    rw [capture_ntfs_stream, hl]

/-- Witness for C6 on concrete tables: a hash hit bumps the refcount
without growing the table, a miss inserts a refcount-1 entry — on both
the POSIX and the NTFS capture paths. -/
theorem C6_capture_interning_witness :
    ((build_dentry_tree_nondir [⟨5, 2, 1, 10, 10, 0, "a"⟩] "b" 10 5).length = 1 ∧
      lookup_resource (build_dentry_tree_nondir [⟨5, 2, 1, 10, 10, 0, "a"⟩] "b" 10 5) 5 =
        some ⟨5, 3, 1, 10, 10, 0, "a"⟩) ∧
    (build_dentry_tree_nondir [] "c" 7 9 =
      [{ new_lookup_table_entry with
          file_on_disk := "c", flags := 0, refcnt := 1, part_number := 1,
          original_size := 7, size := 7, hash := 9 }]) ∧
    ((capture_ntfs_stream [⟨5, 1, 4, 4, "p", false⟩] "q" 9 false 5).length = 1 ∧
      ntfs_lookup_resource (capture_ntfs_stream [⟨5, 1, 4, 4, "p", false⟩] "q" 9 false 5) 5 =
        some ⟨5, 2, 4, 4, "p", false⟩) ∧
    (capture_ntfs_stream [] "q" 12 true 8 = [⟨8, 1, 4, 4, "q", true⟩]) :=
  ⟨C6_capture_interning.1 [⟨5, 2, 1, 10, 10, 0, "a"⟩] "b" 10 5
      ⟨5, 2, 1, 10, 10, 0, "a"⟩ (by rfl),
   C6_capture_interning.2.1 [] "c" 7 9 (by rfl),
   C6_capture_interning.2.2.2.1 [⟨5, 1, 4, 4, "p", false⟩] "q" 9 false 5
      ⟨5, 1, 4, 4, "p", false⟩ (by rfl),
   C6_capture_interning.2.2.2.2 [] "q" 12 true 8 (by rfl)⟩

/-! ## Claim C9 — the XML-inference warning gate (corrected)

The claim names the environment variable `DEBUG_XML_INFO`; the code
(`xml_windows.c` line 669) reads `WIMLIB_DEBUG_XML_INFO`. -/

theorem set_info_from_kernel32_silent (contents : List Nat) :
    (set_info_from_kernel32 false contents).2 = 0 := by
  rw [set_info_from_kernel32]
  dsimp only
  split_ifs <;> rfl

theorem check_hive_status_silent (status : hive_status) :
    (check_hive_status false status).2 = 0 := by
  rw [check_hive_status]
  split_ifs <;> rfl

/-- Counterexample to C9 as stated: in an environment where
`DEBUG_XML_INFO` is set (and `WIMLIB_DEBUG_XML_INFO` is not), the debug
gate stays off, and a warning-triggering condition — kernel32.dll
contents that are not a valid PE binary — emits no warning, although
with the gate on it emits one. -/
theorem C9_counterexample :
    ((fun s => if s = "DEBUG_XML_INFO" then some "1" else none) : String → Option String)
        "DEBUG_XML_INFO" = some "1" ∧
    debug_enabled (fun s => if s = "DEBUG_XML_INFO" then some "1" else none) = false ∧
    (set_info_from_kernel32
        (debug_enabled (fun s => if s = "DEBUG_XML_INFO" then some "1" else none)) []).2 = 0 ∧
    (set_info_from_kernel32 true []).2 = 1 := by
  refine ⟨by decide, by decide, by decide, by rfl⟩

/-- C9 (amended): warnings about unexpected registry or file contents
during XML property inference are emitted exactly when the environment
variable `WIMLIB_DEBUG_XML_INFO` is set: with it absent the modelled
inference steps emit zero warnings, and with it present they emit
exactly the warnings of an enabled debug gate. -/
theorem C9_xml_warnings_gated (env : String → Option String)
    (contents : List Nat) (status : hive_status) :
    ((set_info_from_kernel32 (debug_enabled env) contents).2 =
      if (env "WIMLIB_DEBUG_XML_INFO").isSome
      then (set_info_from_kernel32 true contents).2 else 0) ∧
    ((check_hive_status (debug_enabled env) status).2 =
      if (env "WIMLIB_DEBUG_XML_INFO").isSome
      then (check_hive_status true status).2 else 0) := by
  cases henv : (env "WIMLIB_DEBUG_XML_INFO").isSome with
  | true =>
    have hd : debug_enabled env = true := henv
    rw [hd]
    simp
  | false =>
    have hd : debug_enabled env = false := henv
    rw [hd]
    simp [set_info_from_kernel32_silent, check_hive_status_silent]

end Wimlib
